import Mathlib

/-!
Verification of the version-support classifier in
`src/scripts/generate-registry.js`.

The script's decision logic is embedded shallowly: the `semver` library
calls used by the script (`clean`, `major`, `rcompare`, `satisfies`) are
modelled by an executable semantic-version parser, a lexicographic
precedence order, and a range evaluator; the script's own functions
(`parseGitRef`, `getLatestGitTags`, `inspectNpm`, `guessNpmName`,
`processRepo`, `parseRegistry`) are translated function by function.
JavaScript strings are sequences of characters, so string manipulation is
modelled on `List Char`; a JavaScript exception is modelled as
`Except.error`; network data consumed by the script is passed in as
explicit arguments (the script only ever sees the already-resolved
success/failure outcome of each fetch).

Modelling notes, fixed once here:
* Build metadata (`+...`) is not modelled; a version string containing
  `+` parses as invalid.  The spec's own normalized form (§4.1) carries
  no build component.  Consequently a parsed version string contains the
  character `-` exactly when its prerelease list is nonempty, and the
  script's stability test `!s.includes('-')` is modelled as emptiness of
  the parsed prerelease list.
* `semver.satisfies` is modelled for the range grammar actually reaching
  it from manifests: `||`-separated sets of space-separated comparators
  (`^`, `~`, `>=`, `<=`, `>`, `<`, `=`, bare version, `*`), with carets
  and tildes desugared exactly as node-semver does (`^0.9.0` becomes
  `>=0.9.0 <0.10.0-0`).  Unparsable ranges satisfy nothing, matching
  `semver.satisfies`, which returns `false` when the range fails to
  parse.  The default-mode rule that excludes prerelease versions from
  plain ranges is irrelevant here because the only probed versions,
  `0.9.0` and `1.0.0`, are stable.
* `inspectNpm` applies `semver.rcompare` and `semver.major` to the raw
  npm version strings without filtering; on an unparsable string those
  throw.  Any list with an unparsable element reaches one of these calls
  (a 2-element sort compares every element; the `find` for v0 visits
  elements from the start), so the model raises `Except.error` exactly
  when some version string fails to parse.
-/

namespace Registry

/-- Prerelease identifier of a semantic version: numeric or alphanumeric. -/
inductive PreId where
  | num (n : Nat)
  | str (s : List Char)
deriving DecidableEq

/-- Parsed semantic version (build metadata not modelled, see header). -/
structure SemVer where
  major : Nat
  minor : Nat
  patch : Nat
  prerel : List PreId
deriving DecidableEq

/-- Split a character list at every occurrence of `sep` (model of
JavaScript `String.prototype.split` with a one-character separator). -/
def splitOnChar (sep : Char) (l : List Char) : List (List Char) :=
  match l with
  | [] => [[]]
  | c :: cs =>
    let r := splitOnChar sep cs
    if c == sep then [] :: r
    else
      match r with
      | [] => [[c]]
      | p :: ps => (c :: p) :: ps

/-- Join character lists with a one-character separator (inverse of
`splitOnChar`, used to restore the prerelease part after splitting a
version string at every dash). -/
def joinSep (sep : Char) : List (List Char) → List Char
  | [] => []
  | [p] => p
  | p :: ps => p ++ sep :: joinSep sep ps

/-- Digits-only string to number; `none` when empty or not all digits. -/
def toNatL (l : List Char) : Option Nat :=
  if l ≠ [] && l.all Char.isDigit then
    some (l.foldl (fun acc c => acc * 10 + (c.toNat - 48)) 0)
  else none

/-- Numeric identifier per SemVer: digits with no leading zero,
`0|[1-9][0-9]*`. -/
def parseNumId (l : List Char) : Option Nat :=
  match l with
  | '0' :: _ :: _ => none
  | _ => toNatL l

/-- Characters allowed in alphanumeric identifiers: `[0-9A-Za-z-]`. -/
def isIdChar (c : Char) : Bool := c.isAlphanum || c == '-'

/-- Parse one prerelease identifier
(`0|[1-9][0-9]*|[0-9]*[A-Za-z-][0-9A-Za-z-]*`). -/
def parsePreId (l : List Char) : Option PreId :=
  match parseNumId l with
  | some n => some (.num n)
  | none =>
    if l ≠ [] && l.all isIdChar && l.any (fun c => !c.isDigit) then
      some (.str l)
    else none

/-- Parse a dot-separated prerelease suffix. -/
def parsePrerel (l : List Char) : Option (List PreId) :=
  (splitOnChar '.' l).mapM parsePreId

/-- Parse a bare `major.minor.patch(-prerelease)?` version string. -/
def parseVerL (l : List Char) : Option SemVer :=
  if l.contains '+' then none
  else
    match splitOnChar '-' l with
    | [] => none
    | core :: rest =>
      match splitOnChar '.' core with
      | [ma, mi, pa] =>
        match parseNumId ma, parseNumId mi, parseNumId pa with
        | some a, some b, some c =>
          match rest with
          | [] => some ⟨a, b, c, []⟩
          | _ =>
            match parsePrerel (joinSep '-' rest) with
            | some ids => some ⟨a, b, c, ids⟩
            | none => none
        | _, _, _ => none
      | _ => none

/-- Drop surrounding whitespace (model of `String.prototype.trim`). -/
def trimL (l : List Char) : List Char :=
  ((l.dropWhile Char.isWhitespace).reverse.dropWhile Char.isWhitespace).reverse

/-- Model of `semver.clean` composed with parsing: trim, strip the
leading `[=v]+` run, parse.  `semver.clean` returns the normalized
version string of this parse, or `null`; downstream code only ever feeds
the result back into `semver` calls, so the parsed form is kept. -/
def cleanParse (s : String) : Option SemVer :=
  parseVerL ((trimL s.data).dropWhile (fun c => c == 'v' || c == '='))

/-! Semantic-version precedence is embedded through an order key:
lexicographic on major, minor, patch, then prerelease, where an empty
prerelease (a stable release) is greatest (`⊤`), and nonempty prerelease
lists compare lexicographically with numeric identifiers below
alphanumeric ones, numerics by value, alphanumerics by character code —
the node-semver `comparePre` order. -/

/-- Key for one prerelease identifier: numerics sort below strings. -/
abbrev PreIdK := Nat ⊕ₗ List Char

def preIdK : PreId → PreIdK
  | .num n => toLex (Sum.inl n)
  | .str s => toLex (Sum.inr s)

/-- Key for a whole prerelease: `⊤` for stable, else the identifier list
(shorter lists sort below their extensions, as in SemVer). -/
abbrev PrerelK := WithTop (List PreIdK)

def prerelK : List PreId → PrerelK
  | [] => ⊤
  | l => ((l.map preIdK : List PreIdK) : PrerelK)

/-- Full precedence key of a semantic version. -/
abbrev SVKey := Nat ×ₗ Nat ×ₗ Nat ×ₗ PrerelK

def svKey (v : SemVer) : SVKey :=
  toLex (v.major, toLex (v.minor, toLex (v.patch, prerelK v.prerel)))

/-- Semantic-version precedence (`semver.compare a b ≤ 0`). -/
def svLE (a b : SemVer) : Prop := svKey a ≤ svKey b

/-- Strict semantic-version precedence (`semver.compare a b < 0`). -/
def svLT (a b : SemVer) : Prop := svKey a < svKey b

instance : DecidableRel svLE := fun a b =>
  inferInstanceAs (Decidable (svKey a ≤ svKey b))

instance : DecidableRel svLT := fun a b =>
  inferInstanceAs (Decidable (svKey a < svKey b))

/-- Precedence key of a raw tag/version string; strings that fail to
parse get a dummy key, but every use below is guarded by a successful
parse. -/
def keyOf (t : String) : SVKey := svKey ((cleanParse t).getD ⟨0, 0, 0, []⟩)

/-- Comparator order used by the script's descending sorts: `a` may
stay before `b` exactly when `a`'s version is at least `b`'s.  This is
the order produced by `sort((a, b) => semver.rcompare(a, b))`. -/
def tagGE (a b : String) : Prop := keyOf b ≤ keyOf a

instance : DecidableRel tagGE := fun a b =>
  inferInstanceAs (Decidable (keyOf b ≤ keyOf a))

instance : IsTotal String tagGE := ⟨fun a b => le_total (keyOf b) (keyOf a)⟩

instance : IsTrans String tagGE := ⟨fun _ _ _ h1 h2 => le_trans h2 h1⟩

instance : IsRefl String tagGE := ⟨fun a => le_refl (keyOf a)⟩

/-- Major number of a raw string (`semver.major ∘ semver.clean`),
`none` when the string fails to parse (where the script would throw). -/
def majorOf (t : String) : Option Nat := (cleanParse t).map (·.major)

/-- Stability test: the parsed version has no prerelease suffix.  Models
the script's `!s.includes('-')` (see the build-metadata note in the
header: with no build component, `-` occurs exactly in prereleases). -/
def isStable (t : String) : Bool :=
  match cleanParse t with
  | some v => v.prerel.isEmpty
  | none => false

/-- Result shape shared by `getLatestGitTags` and `inspectNpm`:
`{ repo, v0, v1 }`. -/
structure TagInfo where
  repo : String
  v0 : Option String
  v1 : Option String
deriving DecidableEq

/-- Pure core of `getLatestGitTags` (lines 89-133): given the listed tag
names, filter the ones with valid semver, sort descending by cleaned
version, take the first of major 0 for v0, and for v1 prefer the first
stable tag of major 1, falling back to the highest prerelease.  The
network fetch and its `catch` (which yields `v0 = v1 = null`) stay
outside: the caller passes the fetched tag list, possibly empty. -/
def getLatestGitTags (repo : String) (tags : List String) : TagInfo :=
  let validTags := tags.filter (fun t => (cleanParse t).isSome)
  let sorted := validTags.insertionSort tagGE
  let latestV0Tag := sorted.find? (fun t => majorOf t == some 0)
  let v1Tags := sorted.filter (fun t => majorOf t == some 1)
  let latestV1Tag :=
    match v1Tags.find? isStable with
    | some t => some t
    | none => v1Tags.head?
  ⟨repo, latestV0Tag, latestV1Tag⟩

/-- Selection core of `inspectNpm` (lines 141-166), reached when the
registry metadata has a `versions` object whose keys all parse: sort
descending, first of major 0 for v0, stable-else-highest-prerelease of
major 1 for v1.  The script parses the raw npm strings here
(`semver.rcompare(v)`, `semver.major(v)`); npm version strings carry no
`v`/`=` decoration, on which plain parsing and `cleanParse` agree. -/
def npmSelectCore (pkgName : String) (versions : List String) : TagInfo :=
  let sorted := versions.insertionSort tagGE
  let v0 := sorted.find? (fun v => majorOf v == some 0)
  let v1Versions := sorted.filter (fun v => majorOf v == some 1)
  let v1 :=
    match v1Versions.find? isStable with
    | some v => some v
    | none => v1Versions.head?
  ⟨pkgName, v0, v1⟩

/-- Model of `inspectNpm` (lines 135-167).  `meta = none` models a
failed fetch or missing `versions` (the `!meta || !meta.versions` early
return).  Unlike the git path, the version strings are fed to
`semver.rcompare`/`semver.major` unfiltered, which throw on an
unparsable string (see header); the throw is the `Except.error`. -/
def inspectNpm (pkgName : String) (meta : Option (List String)) :
    Except String TagInfo :=
  match meta with
  | none => .ok ⟨pkgName, none, none⟩
  | some versions =>
    if versions.all (fun v => (cleanParse v).isSome) then
      .ok (npmSelectCore pkgName versions)
    else .error "Invalid Version"

/-! Range satisfaction, modelling the `semver.satisfies(probe, range)`
calls of `processRepo` (see the grammar note in the header). -/

/-- Comparison operator of a simple range comparator. -/
inductive CmpOp where
  | ceq
  | cge
  | cle
  | cgt
  | clt
deriving DecidableEq

/-- One simple comparator, e.g. `>=0.9.0`. -/
structure RComp where
  op : CmpOp
  ver : SemVer
deriving DecidableEq

def evalComp (v : SemVer) (c : RComp) : Bool :=
  match c.op with
  | .ceq => decide (svKey v = svKey c.ver)
  | .cge => decide (svLE c.ver v)
  | .cle => decide (svLE v c.ver)
  | .cgt => decide (svLT c.ver v)
  | .clt => decide (svLT v c.ver)

/-- Upper bound of a caret range, as node-semver desugars it:
`^1.2.3 ↦ <2.0.0-0`, `^0.9.0 ↦ <0.10.0-0`, `^0.0.3 ↦ <0.0.4-0`. -/
def caretUpper (v : SemVer) : SemVer :=
  if v.major > 0 then ⟨v.major + 1, 0, 0, [.num 0]⟩
  else if v.minor > 0 then ⟨0, v.minor + 1, 0, [.num 0]⟩
  else ⟨0, 0, v.patch + 1, [.num 0]⟩

/-- Upper bound of a tilde range: `~a.b.c ↦ <a.(b+1).0-0`. -/
def tildeUpper (v : SemVer) : SemVer :=
  ⟨v.major, v.minor + 1, 0, [.num 0]⟩

/-- Version after a comparator operator, allowing the optional `v`/`=`
decoration node-semver tolerates there. -/
def parseAfterOp (l : List Char) : Option SemVer :=
  parseVerL (l.dropWhile (fun c => c == 'v' || c == '='))

/-- Parse one whitespace-delimited range token into the comparators it
denotes (carets and tildes desugar to a pair of bounds). -/
def parseCompTok (t : List Char) : Option (List RComp) :=
  match t with
  | [] => none
  | ['*'] => some []
  | '^' :: rest =>
    (parseAfterOp rest).map fun v => [⟨.cge, v⟩, ⟨.clt, caretUpper v⟩]
  | '~' :: rest =>
    (parseAfterOp rest).map fun v => [⟨.cge, v⟩, ⟨.clt, tildeUpper v⟩]
  | '>' :: '=' :: rest => (parseAfterOp rest).map fun v => [⟨.cge, v⟩]
  | '<' :: '=' :: rest => (parseAfterOp rest).map fun v => [⟨.cle, v⟩]
  | '>' :: rest => (parseAfterOp rest).map fun v => [⟨.cgt, v⟩]
  | '<' :: rest => (parseAfterOp rest).map fun v => [⟨.clt, v⟩]
  | '=' :: rest => (parseAfterOp rest).map fun v => [⟨.ceq, v⟩]
  | _ => (parseAfterOp t).map fun v => [⟨.ceq, v⟩]

/-- Split a range string at every `||`. -/
def splitOnBars : List Char → List (List Char)
  | [] => [[]]
  | '|' :: '|' :: rest => [] :: splitOnBars rest
  | c :: rest =>
    match splitOnBars rest with
    | [] => [[c]]
    | p :: ps => (c :: p) :: ps

/-- Parse one `||`-alternative: space-separated comparators, all of
which must hold.  The empty set (from `""` or `*`) matches everything. -/
def parseCompSet (l : List Char) : Option (List RComp) :=
  (((splitOnChar ' ' l).filter (· ≠ [])).mapM parseCompTok).map List.flatten

/-- Parse a full range: `||`-separated comparator sets. -/
def parseRange (s : String) : Option (List (List RComp)) :=
  (splitOnBars s.data).mapM parseCompSet

/-- Model of `semver.satisfies(v, range)`: `false` when the range fails
to parse, else true iff some alternative's comparators all hold. -/
def svSatisfies (v : SemVer) (range : String) : Bool :=
  match parseRange range with
  | none => false
  | some sets => sets.any (fun cs => cs.all (evalComp v))

/-- Probe version `"0.9.0"` of the v0 manifest check (line 235). -/
def probeV0 : SemVer := ⟨0, 9, 0, []⟩

/-- Probe version `"1.0.0"` of the v1 manifest check (line 236). -/
def probeV1 : SemVer := ⟨1, 0, 0, []⟩

/-! The manifest compatibility loop of `processRepo` (lines 212-252). -/

/-- Manifest data fetched from one branch's `package.json`:
`{ version, coreRange }` as returned by `fetchPackageJSON` (lines
70-76); either field may be absent. -/
structure PkgData where
  version : Option String
  coreRange : Option String
deriving DecidableEq

/-- A fetched manifest tagged with its branch (the `{ ...pkg, branch }`
of line 223). -/
structure Pkg where
  version : Option String
  coreRange : Option String
  branch : String
deriving DecidableEq

/-- JavaScript truthiness of a possibly-absent string: `undefined`,
`null` and `""` are falsy. -/
def jsTruthy : Option String → Bool
  | none => false
  | some s => !(s == "")

/-- State threaded through the manifest loop: the `supportsV0`,
`supportsV1` flags and the `supportedBranches` record. -/
structure MScan where
  sV0 : Bool
  sV1 : Bool
  bV0 : Option String
  bV1 : Option String
deriving DecidableEq

/-- Initial scan state: flags false, branches null (lines 213-216,
229-230). -/
def mscanInit : MScan := ⟨false, false, none, none⟩

/-- One iteration of the manifest loop (lines 232-252): skip unless both
`pkg.version` and `pkg.coreRange` are truthy; then
`semver.major(semver.clean(version))` — which throws when the version
fails to parse — and the two probe checks; a positive check overwrites
the flag and branch of its track. -/
def manifestStep (st : MScan) (pkg : Pkg) : Except String MScan :=
  if jsTruthy pkg.version && jsTruthy pkg.coreRange then
    match cleanParse (pkg.version.getD "") with
    | none => .error "Invalid Version"
    | some v =>
      let rng := pkg.coreRange.getD ""
      let satisfiesV0Core := svSatisfies probeV0 rng
      let satisfiesV1Core := svSatisfies probeV1 rng
      let st1 :=
        if v.major == 0 && satisfiesV0Core then
          { st with sV0 := true, bV0 := some pkg.branch }
        else st
      let st2 :=
        if (decide (1 ≤ v.major)) && satisfiesV1Core then
          { st1 with sV1 := true, bV1 := some pkg.branch }
        else st1
      .ok st2
  else .ok st

/-- The whole manifest loop, in branch-candidate order. -/
def manifestScan : List Pkg → MScan → Except String MScan
  | [], st => .ok st
  | p :: ps, st =>
    match manifestStep st p with
    | .error e => .error e
    | .ok st' => manifestScan ps st'

/-! Remaining pieces of `processRepo` and the registry pipeline. -/

/-- Model of `parseGitRef` (lines 34-40): values of the form
`github:owner/repo`; `split("/")` keeps the first two components and a
missing or empty owner or repo yields `null`. -/
def parseGitRef (gitRef : String) : Option (String × String) :=
  if (gitRef.data).take 7 == ("github:".data) then
    let repoPath := (gitRef.data).drop 7
    let parts := splitOnChar '/' repoPath
    let owner := parts.getD 0 []
    let repo := parts.getD 1 []
    if owner ≠ [] && repo ≠ [] then some (⟨owner⟩, ⟨repo⟩) else none
  else none

/-- Model of `guessNpmName` (lines 170-175): rewrite the
`@elizaos-plugins/` scope to `@elizaos/`. -/
def guessNpmName (jsName : String) : String :=
  if (jsName.data).take 17 == ("@elizaos-plugins/".data) then
    "@elizaos/" ++ ⟨(jsName.data).drop 17⟩
  else jsName

/-- The fixed branch probe order filtered to existing branches
(lines 200-202). -/
def branchCandidates (branches : List String) : List String :=
  ["main", "master", "0.x", "1.x"].filter branches.contains

/-- Per-repository remote data, as resolved by the fetch layer before
the classifier runs: listed branch names, the `fetchPackageJSON` outcome
per branch (`none` models both a fetch failure after retries and a
rejected promise, which is skipped), listed tag names, and the npm
`versions` keys when the metadata fetch succeeded. -/
structure RemoteRepo where
  branches : List String
  pkgOn : String → Option PkgData
  tags : List String
  npmMeta : Option (List String)

/-- The manifests actually scanned: fetch results on existing candidate
branches, tagged with their branch, in probe order (lines 207-227). -/
def collectPkgs (w : RemoteRepo) : List Pkg :=
  (branchCandidates w.branches).filterMap fun br =>
    (w.pkgOn br).map fun p => ⟨p.version, p.coreRange, br⟩

/-- Lines 258-269: after the manifest loop, a truthy npm selection
re-checked against its major (`=== 0` for v0, `>= 1` for v1) also sets
the flag; `semver.major(semver.clean(s))` throws when the cleaned string
fails to parse. -/
def npmRecheck (sel : Option String) (ok : Nat → Bool) (flag : Bool) :
    Except String Bool :=
  if jsTruthy sel then
    match cleanParse (sel.getD "") with
    | none => .error "Invalid Version"
    | some v => .ok (flag || ok v.major)
  else .ok flag

/-- JavaScript `a || b || null` on possibly-absent strings. -/
def jsOr (a b : Option String) : Option String :=
  if jsTruthy a then a else if jsTruthy b then b else none

/-- JavaScript `a || b` on plain strings (empty is falsy). -/
def jsOrS (a b : String) : String := if a == "" then b else a

/-- Per-track slice of the `git` output object:
`{ version, branch }` (lines 277-284). -/
structure VerBranch where
  version : Option String
  branch : Option String
deriving DecidableEq

/-- The `git` output object (lines 275-285). -/
structure GitInfo where
  repo : String
  v0 : VerBranch
  v1 : VerBranch
deriving DecidableEq

/-- The `supports` output object. -/
structure Supports where
  v0 : Bool
  v1 : Bool
deriving DecidableEq

/-- Value stored in the report per plugin:
`{ git, npm, supports }` (lines 290-298). -/
structure RepoInfo where
  git : GitInfo
  npm : TagInfo
  supports : Supports
deriving DecidableEq

/-- Model of `processRepo` (lines 177-299): an invalid git reference
throws; otherwise the manifest loop runs over the collected manifests,
then the npm selection tops up the flags, and the git object prefers
tag-derived versions with npm as fallback.  The returned pair is the
`[npmId, info]` of line 290 (the `issues` log array is not modelled). -/
def processRepo (npmId gitRef : String) (w : RemoteRepo) :
    Except String (String × RepoInfo) :=
  match parseGitRef gitRef with
  | none => .error ("Invalid git reference: " ++ gitRef)
  | some (owner, repo) =>
    match manifestScan (collectPkgs w) mscanInit with
    | .error e => .error e
    | .ok ms =>
      let gitTagInfo := getLatestGitTags (owner ++ "/" ++ repo) w.tags
      match inspectNpm (guessNpmName npmId) w.npmMeta with
      | .error e => .error e
      | .ok npmInfo =>
        match npmRecheck npmInfo.v0 (· == 0) ms.sV0 with
        | .error e => .error e
        | .ok supportsV0 =>
          match npmRecheck npmInfo.v1 (fun m => decide (1 ≤ m)) ms.sV1 with
          | .error e => .error e
          | .ok supportsV1 =>
            let gitInfo : GitInfo :=
              { repo := jsOrS gitTagInfo.repo
                  (jsOrS npmInfo.repo (owner ++ "/" ++ repo))
                v0 := ⟨jsOr gitTagInfo.v0 npmInfo.v0, ms.bV0⟩
                v1 := ⟨jsOr gitTagInfo.v1 npmInfo.v1, ms.bV1⟩ }
            .ok (npmId, ⟨gitInfo, npmInfo, ⟨supportsV0, supportsV1⟩⟩)

/-! The registry pipeline of `parseRegistry` and `main`
(lines 301-406). -/

/-- The filter of lines 318-326: keep entries whose key is truthy and
not whitespace-only and whose value starts with `github:` (entry values
are modelled as strings; the `typeof value === "string"` guard is then
always true). -/
def keepEntry (k v : String) : Bool :=
  k.data ≠ [] && trimL k.data ≠ [] && (v.data).take 7 == ("github:".data)

def filterRegistry (entries : List (String × String)) :
    List (String × String) :=
  entries.filter fun e => keepEntry e.1 e.2

/-- Classification of all kept entries (lines 337-361).  The batch loop
preserves entry order and a rejected `processRepo` promise propagates
out of `Promise.all`, aborting the whole run before any report is
produced; sequential traversal in `Except` captures exactly that
success/abort behaviour. -/
def classifyAll (entries : List (String × String))
    (world : String → RemoteRepo) :
    Except String (List (String × RepoInfo)) :=
  entries.mapM fun e => processRepo e.1 e.2 (world e.1)

/-- The object returned by `parseRegistry` on success (lines 373-376). -/
structure Report where
  lastUpdatedAt : String
  registry : List (String × RepoInfo)

/-- Model of `parseRegistry` (lines 301-377): `index = none` models an
unreadable/unparsable `index.json` (the early `return null`); a
classification throw propagates; otherwise the report object is built
with the run timestamp `now` (`new Date().toISOString()` is an external
input here). -/
def parseRegistry (index : Option (List (String × String)))
    (world : String → RemoteRepo) (now : String) :
    Except String (Option Report) :=
  match index with
  | none => .ok none
  | some entries =>
    match classifyAll (filterRegistry entries) world with
    | .error e => .error e
    | .ok rep => .ok (some ⟨now, rep⟩)

/-! The JSON document written by `main` (lines 397-398), modelled to the
level of field names and insertion order, which is what
`JSON.stringify` serializes. -/

/-- JSON values, as far as the output shape needs. -/
inductive J where
  | s (v : String)
  | b (v : Bool)
  | nullv
  | obj (fields : List (String × J))

def optStr : Option String → J
  | none => .nullv
  | some s => .s s

def jsonOfVerBranch (vb : VerBranch) : J :=
  .obj [("version", optStr vb.version), ("branch", optStr vb.branch)]

def jsonOfGit (g : GitInfo) : J :=
  .obj [("repo", .s g.repo), ("v0", jsonOfVerBranch g.v0),
    ("v1", jsonOfVerBranch g.v1)]

def jsonOfNpm (n : TagInfo) : J :=
  .obj [("repo", .s n.repo), ("v0", optStr n.v0), ("v1", optStr n.v1)]

def jsonOfRepoInfo (r : RepoInfo) : J :=
  .obj [("git", jsonOfGit r.git), ("npm", jsonOfNpm r.npm),
    ("supports", .obj [("v0", .b r.supports.v0), ("v1", .b r.supports.v1)])]

/-- The serialized top-level document: the object literal of lines
373-376 with its two fields in insertion order. -/
def reportJson (r : Report) : J :=
  .obj [("lastUpdatedAt", .s r.lastUpdatedAt),
    ("registry", .obj (r.registry.map fun e => (e.1, jsonOfRepoInfo e.2)))]

/-- Field names of a JSON object. -/
def topKeys : J → List String
  | .obj fs => fs.map (·.1)
  | _ => []

/-- What `main` writes (lines 388-399): nothing on a null result or a
thrown error (the process exits non-zero), else the serialized report. -/
def mainOutput (index : Option (List (String × String)))
    (world : String → RemoteRepo) (now : String) : Option J :=
  match parseRegistry index world now with
  | .error _ => none
  | .ok none => none
  | .ok (some r) => some (reportJson r)

/-! Statement vocabulary: positivity of one manifest for each track
(the condition under which the loop body of lines 240-250 fires), the
branches of the positive manifests in scan order, and JSON field
lookup.  These are used to state properties, not translated from the
source. -/

/-- The manifest fires the v0 check: truthy version and range, parsable
version of major 0, and probe `0.9.0` satisfies the range. -/
def pkgPosV0 (p : Pkg) : Bool :=
  jsTruthy p.version && jsTruthy p.coreRange &&
    (match cleanParse (p.version.getD "") with
     | some v => v.major == 0 && svSatisfies probeV0 (p.coreRange.getD "")
     | none => false)

/-- The manifest fires the v1 check: truthy version and range, parsable
version of major at least 1, and probe `1.0.0` satisfies the range. -/
def pkgPosV1 (p : Pkg) : Bool :=
  jsTruthy p.version && jsTruthy p.coreRange &&
    (match cleanParse (p.version.getD "") with
     | some v =>
       decide (1 ≤ v.major) && svSatisfies probeV1 (p.coreRange.getD "")
     | none => false)

/-- Branches of the v0-positive manifests, in scan order. -/
def posBranchesV0 (ps : List Pkg) : List String :=
  (ps.filter pkgPosV0).map (·.branch)

/-- Branches of the v1-positive manifests, in scan order. -/
def posBranchesV1 (ps : List Pkg) : List String :=
  (ps.filter pkgPosV1).map (·.branch)

/-- JSON field lookup, for stating output-shape properties. -/
def fieldOf (j : J) (k : String) : Option J :=
  match j with
  | .obj fs => (fs.find? (fun e => e.1 == k)).map (·.2)
  | _ => none

/-! Concrete remote-data fixtures used in closed statements. -/

/-- No branches, no manifests, one v0 git tag, no npm metadata. -/
def worldGitOnly : RemoteRepo := ⟨[], fun _ => none, ["0.3.1"], none⟩

/-- No branches, no manifests, no git tags, one v0 npm version. -/
def worldNpmV0 : RemoteRepo := ⟨[], fun _ => none, [], some ["0.3.1"]⟩

/-- No remote data at all. -/
def worldEmpty : RemoteRepo := ⟨[], fun _ => none, [], none⟩

/-- Branches `main` and `0.x`, each carrying a v0-positive manifest. -/
def worldTwoBranches : RemoteRepo :=
  ⟨["0.x", "main"],
    fun br =>
      if br == "main" then some ⟨some "0.5.0", some "^0.9.0"⟩
      else if br == "0.x" then some ⟨some "0.6.0", some "^0.9.0"⟩
      else none,
    [], none⟩

/-! ### General lemmas about the embedded definitions -/

theorem cleanParse_empty : cleanParse "" = none := rfl

theorem cleanParse_ne_empty {t : String} {v : SemVer}
    (h : cleanParse t = some v) : t ≠ "" := by
  intro he
  rw [he, cleanParse_empty] at h
  exact Option.noConfusion h

theorem jsTruthy_of_parse {t : String} {v : SemVer}
    (h : cleanParse t = some v) : jsTruthy (some t) = true := by
  have hne : t ≠ "" := cleanParse_ne_empty h
  simp [jsTruthy, hne]

theorem majorOf_eq_some {t : String} {m : Nat} (h : majorOf t = some m) :
    ∃ v, cleanParse t = some v ∧ v.major = m := by
  unfold majorOf at h
  cases hc : cleanParse t with
  | none => rw [hc] at h; exact Option.noConfusion h
  | some v =>
    rw [hc] at h
    exact ⟨v, rfl, Option.some.inj h⟩

/-- The first element a `find?` returns from a `tagGE`-sorted list is
`tagGE`-above every element of the list that satisfies the predicate. -/
theorem find_sorted_rel {p : String → Bool} :
    ∀ {l : List String}, l.Sorted tagGE → ∀ {x : String},
      l.find? p = some x → ∀ y ∈ l, p y = true → tagGE x y := by
  intro l
  induction l with
  | nil => intro _ x hx; exact absurd hx (by simp)
  | cons a t ih =>
    intro hs x hx y hy hpy
    rw [List.sorted_cons] at hs
    by_cases hpa : p a = true
    · rw [List.find?_cons_of_pos _ hpa] at hx
      cases Option.some.inj hx
      rcases List.mem_cons.mp hy with rfl | hyt
      · exact refl_of tagGE y
      · exact hs.1 y hyt
    · rw [List.find?_cons_of_neg _ (by simpa using hpa)] at hx
      rcases List.mem_cons.mp hy with rfl | hyt
      · exact absurd hpy hpa
      · exact ih hs.2 hx y hyt hpy

/-- The head of a `tagGE`-sorted list is `tagGE`-above every element. -/
theorem head_sorted_rel {l : List String} (hs : l.Sorted tagGE) {x : String}
    (hx : l.head? = some x) : ∀ y ∈ l, tagGE x y := by
  cases l with
  | nil => exact absurd hx (by simp)
  | cons a t =>
    cases Option.some.inj hx
    intro y hy
    rcases List.mem_cons.mp hy with rfl | hyt
    · exact refl_of tagGE y
    · exact List.rel_of_sorted_cons hs y hyt

/-! Specifications of the shared selection pattern
`sort descending, then find/filter by major`. -/

theorem sel_major_spec {l : List String} {m : Nat} {x : String}
    (hx : (l.insertionSort tagGE).find? (fun t => majorOf t == some m) =
      some x) :
    x ∈ l ∧ majorOf x = some m ∧
      ∀ y ∈ l, majorOf y = some m → tagGE x y := by
  refine ⟨(List.mem_insertionSort tagGE).mp (List.mem_of_find?_eq_some hx),
    by simpa using List.find?_some hx, ?_⟩
  intro y hy hmy
  exact find_sorted_rel (List.sorted_insertionSort tagGE l) hx y
    ((List.mem_insertionSort tagGE).mpr hy) (by simpa using hmy)

theorem sel_major_exists {l : List String} {m : Nat} {y : String}
    (hy : y ∈ l) (hmy : majorOf y = some m) :
    ∃ x, (l.insertionSort tagGE).find? (fun t => majorOf t == some m) =
      some x := by
  have h1 : ((l.insertionSort tagGE).find?
      (fun t => majorOf t == some m)).isSome := by
    rw [List.find?_isSome]
    exact ⟨y, (List.mem_insertionSort tagGE).mpr hy, by simpa using hmy⟩
  exact Option.isSome_iff_exists.mp h1

theorem selfilter_sorted (l : List String) (p : String → Bool) :
    ((l.insertionSort tagGE).filter p).Sorted tagGE :=
  (List.sorted_insertionSort tagGE l).filter p

theorem sel_v1_stable_spec {l : List String} {x : String}
    (hx : ((l.insertionSort tagGE).filter
      (fun t => majorOf t == some 1)).find? isStable = some x) :
    x ∈ l ∧ majorOf x = some 1 ∧ isStable x = true ∧
      ∀ y ∈ l, majorOf y = some 1 → isStable y = true → tagGE x y := by
  have hxf := List.mem_filter.mp (List.mem_of_find?_eq_some hx)
  refine ⟨(List.mem_insertionSort tagGE).mp hxf.1, by simpa using hxf.2,
    List.find?_some hx, ?_⟩
  intro y hy h1y hsy
  exact find_sorted_rel (selfilter_sorted l _) hx y
    (List.mem_filter.mpr ⟨(List.mem_insertionSort tagGE).mpr hy, by simpa using h1y⟩)
    hsy

theorem sel_v1_stable_exists {l : List String} {y : String} (hy : y ∈ l)
    (h1 : majorOf y = some 1) (hs : isStable y = true) :
    ∃ x, ((l.insertionSort tagGE).filter
      (fun t => majorOf t == some 1)).find? isStable = some x := by
  have hIn : (((l.insertionSort tagGE).filter
      (fun t => majorOf t == some 1)).find? isStable).isSome := by
    rw [List.find?_isSome]
    exact ⟨y, List.mem_filter.mpr
      ⟨(List.mem_insertionSort tagGE).mpr hy, by simpa using h1⟩, hs⟩
  exact Option.isSome_iff_exists.mp hIn

theorem sel_v1_pre_spec {l : List String} {x : String}
    (hn : ((l.insertionSort tagGE).filter
      (fun t => majorOf t == some 1)).find? isStable = none)
    (hx : ((l.insertionSort tagGE).filter
      (fun t => majorOf t == some 1)).head? = some x) :
    x ∈ l ∧ majorOf x = some 1 ∧ isStable x = false ∧
      ∀ y ∈ l, majorOf y = some 1 → tagGE x y := by
  have hxm : x ∈ (l.insertionSort tagGE).filter
      (fun t => majorOf t == some 1) := by
    cases hd : (l.insertionSort tagGE).filter
        (fun t => majorOf t == some 1) with
    | nil => rw [hd] at hx; exact absurd hx (by simp)
    | cons a t =>
      rw [hd] at hx
      cases Option.some.inj hx
      exact List.mem_cons_self _ _
  have hxf := List.mem_filter.mp hxm
  have hstx : isStable x = false := by
    have := List.find?_eq_none.mp hn x hxm
    simpa using this
  refine ⟨(List.mem_insertionSort tagGE).mp hxf.1, by simpa using hxf.2, hstx, ?_⟩
  intro y hy h1y
  exact head_sorted_rel (selfilter_sorted l _) hx y
    (List.mem_filter.mpr ⟨(List.mem_insertionSort tagGE).mpr hy, by simpa using h1y⟩)

theorem sel_v1_nonempty {l : List String} {y : String} (hy : y ∈ l)
    (h1 : majorOf y = some 1) :
    ∃ x, ((l.insertionSort tagGE).filter
      (fun t => majorOf t == some 1)).head? = some x := by
  cases hd : (l.insertionSort tagGE).filter
      (fun t => majorOf t == some 1) with
  | nil =>
    exfalso
    have : y ∈ (l.insertionSort tagGE).filter
        (fun t => majorOf t == some 1) :=
      List.mem_filter.mpr ⟨(List.mem_insertionSort tagGE).mpr hy, by simpa using h1⟩
    rw [hd] at this
    exact absurd this (by simp)
  | cons a t => exact ⟨a, rfl⟩

/-- Membership in the git selector's valid-tag prefilter follows from a
successful major parse. -/
theorem mem_valid_of_major {tags : List String} {y : String} {m : Nat}
    (hy : y ∈ tags) (hm : majorOf y = some m) :
    y ∈ tags.filter (fun t => (cleanParse t).isSome) := by
  obtain ⟨v, hv, _⟩ := majorOf_eq_some hm
  exact List.mem_filter.mpr ⟨hy, by simp [hv]⟩

/-- Unfolding the two tracks of `getLatestGitTags`. -/
theorem getLatestGitTags_v0 (repo : String) (tags : List String) :
    (getLatestGitTags repo tags).v0 =
      ((tags.filter (fun t => (cleanParse t).isSome)).insertionSort
        tagGE).find? (fun t => majorOf t == some 0) := rfl

theorem getLatestGitTags_v1 (repo : String) (tags : List String) :
    (getLatestGitTags repo tags).v1 =
      (match (((tags.filter (fun t => (cleanParse t).isSome)).insertionSort
          tagGE).filter (fun t => majorOf t == some 1)).find? isStable with
       | some t => some t
       | none => (((tags.filter
           (fun t => (cleanParse t).isSome)).insertionSort tagGE).filter
           (fun t => majorOf t == some 1)).head?) := rfl

/-- Unfolding the two tracks of `npmSelectCore`. -/
theorem npmSelectCore_v0 (nm : String) (versions : List String) :
    (npmSelectCore nm versions).v0 =
      (versions.insertionSort tagGE).find?
        (fun t => majorOf t == some 0) := rfl

theorem npmSelectCore_v1 (nm : String) (versions : List String) :
    (npmSelectCore nm versions).v1 =
      (match ((versions.insertionSort tagGE).filter
          (fun t => majorOf t == some 1)).find? isStable with
       | some t => some t
       | none => ((versions.insertionSort tagGE).filter
           (fun t => majorOf t == some 1)).head?) := rfl

/-- A successful `inspectNpm` on present metadata runs the selection
core on all-parsable versions. -/
theorem inspectNpm_ok_versions {nm : String} {versions : List String}
    {ti : TagInfo} (h : inspectNpm nm (some versions) = .ok ti) :
    (∀ v ∈ versions, (cleanParse v).isSome = true) ∧
      ti = npmSelectCore nm versions := by
  have h2 : (if (versions.all fun v => (cleanParse v).isSome) = true then
      Except.ok (npmSelectCore nm versions)
    else (Except.error "Invalid Version" : Except String TagInfo)) =
      Except.ok ti := h
  by_cases hall : (versions.all fun v => (cleanParse v).isSome) = true
  · rw [if_pos hall] at h2
    exact ⟨List.all_eq_true.mp hall, (Except.ok.inj h2).symm⟩
  · rw [if_neg hall] at h2
    exact absurd h2 (by simp)

theorem inspectNpm_v0_major {nm : String} {meta : Option (List String)}
    {ti : TagInfo} {x : String} (h : inspectNpm nm meta = .ok ti)
    (hx : ti.v0 = some x) : majorOf x = some 0 := by
  cases meta with
  | none =>
    cases Except.ok.inj h
    exact absurd hx (by simp)
  | some versions =>
    obtain ⟨-, rfl⟩ := inspectNpm_ok_versions h
    rw [npmSelectCore_v0] at hx
    simpa using List.find?_some hx

theorem inspectNpm_v1_major {nm : String} {meta : Option (List String)}
    {ti : TagInfo} {x : String} (h : inspectNpm nm meta = .ok ti)
    (hx : ti.v1 = some x) : majorOf x = some 1 := by
  cases meta with
  | none =>
    cases Except.ok.inj h
    exact absurd hx (by simp)
  | some versions =>
    obtain ⟨-, rfl⟩ := inspectNpm_ok_versions h
    rw [npmSelectCore_v1] at hx
    cases hf : ((versions.insertionSort tagGE).filter
        (fun t => majorOf t == some 1)).find? isStable with
    | some s =>
      rw [hf] at hx
      cases Option.some.inj hx
      have := List.mem_filter.mp (List.mem_of_find?_eq_some hf)
      simpa using this.2
    | none =>
      rw [hf] at hx
      have := (sel_v1_pre_spec hf hx).2.1
      exact this

/-- Characterization of one manifest-loop iteration: each track's flag
is `or`-ed with that manifest's positivity and a positive manifest
overwrites the recorded branch. -/
theorem manifestStep_ok {st : MScan} {p : Pkg} {st' : MScan}
    (h : manifestStep st p = .ok st') :
    st' = ⟨st.sV0 || pkgPosV0 p, st.sV1 || pkgPosV1 p,
      if pkgPosV0 p = true then some p.branch else st.bV0,
      if pkgPosV1 p = true then some p.branch else st.bV1⟩ := by
  unfold manifestStep at h
  split at h
  · rename_i ht
    split at h
    · exact absurd h (by simp)
    · rename_i v hc
      cases Except.ok.inj h
      have hp0 : pkgPosV0 p =
          (v.major == 0 && svSatisfies probeV0 (p.coreRange.getD "")) := by
        simp only [pkgPosV0, hc, ht, Bool.true_and]
      have hp1 : pkgPosV1 p =
          (decide (1 ≤ v.major) &&
            svSatisfies probeV1 (p.coreRange.getD "")) := by
        simp only [pkgPosV1, hc, ht, Bool.true_and]
      rw [hp0, hp1]
      by_cases h0 :
          (v.major == 0 && svSatisfies probeV0 (p.coreRange.getD "")) = true <;>
        by_cases h1 : (decide (1 ≤ v.major) &&
          svSatisfies probeV1 (p.coreRange.getD "")) = true <;>
        simp [h0, h1]
  · rename_i ht
    cases Except.ok.inj h
    have hf : (jsTruthy p.version && jsTruthy p.coreRange) = false := by
      simpa using ht
    have hp0 : pkgPosV0 p = false := by
      simp only [pkgPosV0, Bool.and_assoc] at hf ⊢
      rcases Bool.and_eq_false_iff.mp hf with h' | h'
      · simp [h']
      · simp [h']
    have hp1 : pkgPosV1 p = false := by
      simp only [pkgPosV1, Bool.and_assoc] at hf ⊢
      rcases Bool.and_eq_false_iff.mp hf with h' | h'
      · simp [h']
      · simp [h']
    simp [hp0, hp1]

/-- `npmRecheck` on a selection whose major is 0 is just a disjunction
with presence. -/
theorem npmRecheck_v0 {sel : Option String} {flag : Bool}
    (hsel : ∀ x, sel = some x → majorOf x = some 0) :
    npmRecheck sel (· == 0) flag = .ok (flag || sel.isSome) := by
  cases sel with
  | none => simp [npmRecheck, jsTruthy]
  | some x =>
    obtain ⟨v, hv, hm⟩ := majorOf_eq_some (hsel x rfl)
    have hne : x ≠ "" := cleanParse_ne_empty hv
    simp [npmRecheck, jsTruthy, hne, hv, hm]

theorem npmRecheck_v1 {sel : Option String} {flag : Bool}
    (hsel : ∀ x, sel = some x → majorOf x = some 1) :
    npmRecheck sel (fun m => decide (1 ≤ m)) flag =
      .ok (flag || sel.isSome) := by
  cases sel with
  | none => simp [npmRecheck, jsTruthy]
  | some x =>
    obtain ⟨v, hv, hm⟩ := majorOf_eq_some (hsel x rfl)
    have hne : x ≠ "" := cleanParse_ne_empty hv
    simp [npmRecheck, jsTruthy, hne, hv, hm]

/-- Supports flags of a successful `processRepo`: the manifest flag
`or`-ed with npm presence; the git-tag selection never contributes. -/
theorem processRepo_supports {npmId gitRef : String} {w : RemoteRepo}
    {ms : MScan} {ni : TagInfo} {out : String × RepoInfo}
    (hms : manifestScan (collectPkgs w) mscanInit = .ok ms)
    (hni : inspectNpm (guessNpmName npmId) w.npmMeta = .ok ni)
    (hout : processRepo npmId gitRef w = .ok out) :
    out.2.supports.v0 = (ms.sV0 || ni.v0.isSome) ∧
      out.2.supports.v1 = (ms.sV1 || ni.v1.isSome) ∧
      out.2.npm = ni := by
  unfold processRepo at hout
  cases hpg : parseGitRef gitRef with
  | none => rw [hpg] at hout; exact absurd hout (by simp)
  | some pr =>
    obtain ⟨owner, repo⟩ := pr
    simp only [hpg, hms, hni,
      npmRecheck_v0 (fun x hx => inspectNpm_v0_major hni hx),
      npmRecheck_v1 (fun x hx => inspectNpm_v1_major hni hx)] at hout
    cases Except.ok.inj hout
    exact ⟨rfl, rfl, rfl⟩

/-! ### Claim theorems -/

/-- Claim C3: for a manifest with a present (truthy) core dependency
range and a parsable declared version, the v0 flag is set iff the
declared major is 0 and probe `0.9.0` satisfies the range, and the v1
flag iff the declared major is at least 1 and probe `1.0.0` satisfies
the range; an absent range contributes no signal; and the two concrete
example manifests behave as the claim states. -/
theorem C3_manifest_check :
    (∀ (ver rng br : String) (v : SemVer) (st : MScan),
        cleanParse ver = some v → rng ≠ "" →
        manifestStep mscanInit ⟨some ver, some rng, br⟩ = .ok st →
        (st.sV0 = true ↔ (v.major = 0 ∧ svSatisfies probeV0 rng = true)) ∧
        (st.sV1 = true ↔ (1 ≤ v.major ∧ svSatisfies probeV1 rng = true))) ∧
    (∀ (st : MScan) (ver : Option String) (br : String),
        manifestStep st ⟨ver, none, br⟩ = .ok st) ∧
    manifestStep mscanInit ⟨some "0.5.0", some "^0.9.0", "main"⟩ =
      .ok ⟨true, false, some "main", none⟩ ∧
    manifestStep mscanInit ⟨some "1.2.0", some "^0.9.0", "main"⟩ =
      .ok mscanInit := by
  refine ⟨?_, ?_, rfl, rfl⟩
  · intro ver rng br v st hv hrng hstep
    have h1 : (ver == "") = false := beq_eq_false_iff_ne.mpr
      (cleanParse_ne_empty hv)
    have h2 : (rng == "") = false := beq_eq_false_iff_ne.mpr hrng
    rw [manifestStep_ok hstep]
    constructor
    · simp [mscanInit, pkgPosV0, jsTruthy, h1, h2, hv, Bool.and_eq_true,
        beq_iff_eq]
    · simp [mscanInit, pkgPosV1, jsTruthy, h1, h2, hv, Bool.and_eq_true]
  · intro st ver br
    simp [manifestStep, jsTruthy]

/-- Witness for C3 at the first example manifest. -/
theorem C3_manifest_check_witness :
    ((⟨true, false, some "main", none⟩ : MScan).sV0 = true ↔
        ((⟨0, 5, 0, []⟩ : SemVer).major = 0 ∧
          svSatisfies probeV0 "^0.9.0" = true)) ∧
      ((⟨true, false, some "main", none⟩ : MScan).sV1 = true ↔
        (1 ≤ (⟨0, 5, 0, []⟩ : SemVer).major ∧
          svSatisfies probeV1 "^0.9.0" = true)) :=
  C3_manifest_check.1 "0.5.0" "^0.9.0" "main" ⟨0, 5, 0, []⟩
    ⟨true, false, some "main", none⟩ (by decide) (by decide) rfl

/-- Claim C7: selection is by semantic-version precedence, not string
order: `["v1.9.0", "v1.10.0"]` selects `"v1.10.0"` for major 1, and
`["1.0.0-beta.2", "1.0.0-beta.10"]` selects `"1.0.0-beta.10"`, on both
the git-tag source and the npm source. -/
theorem C7_semver_order :
    (getLatestGitTags "owner/repo" ["v1.9.0", "v1.10.0"]).v1 =
      some "v1.10.0" ∧
    (getLatestGitTags "owner/repo" ["1.0.0-beta.2", "1.0.0-beta.10"]).v1 =
      some "1.0.0-beta.10" ∧
    inspectNpm "pkg" (some ["1.0.0-beta.2", "1.0.0-beta.10"]) =
      .ok ⟨"pkg", none, some "1.0.0-beta.10"⟩ :=
  ⟨by decide, by decide, rfl⟩

/-- Counterexample to claim C9: the top level of the written document
has field `lastUpdatedAt`, not `generatedAt`. -/
theorem C9_counterexample :
    topKeys (reportJson ⟨"2026-02-03T04:05:06.789Z", []⟩) =
      ["lastUpdatedAt", "registry"] ∧
    "generatedAt" ∉ topKeys (reportJson ⟨"2026-02-03T04:05:06.789Z", []⟩) := by
  decide

/-- Claim C9 as amended: the top level has exactly `lastUpdatedAt` and
`registry`; `registry` maps each plugin to an object with exactly
`git`, `npm` and `supports`, and `supports` holds the two booleans. -/
theorem C9_amended :
    (∀ r : Report, topKeys (reportJson r) = ["lastUpdatedAt", "registry"]) ∧
    (∀ r : Report, fieldOf (reportJson r) "generatedAt" = none) ∧
    (∀ r : Report,
      fieldOf (reportJson r) "lastUpdatedAt" = some (.s r.lastUpdatedAt)) ∧
    (∀ r : Report, fieldOf (reportJson r) "registry" =
      some (.obj (r.registry.map fun e => (e.1, jsonOfRepoInfo e.2)))) ∧
    (∀ ri : RepoInfo, topKeys (jsonOfRepoInfo ri) = ["git", "npm", "supports"]) ∧
    (∀ ri : RepoInfo, fieldOf (jsonOfRepoInfo ri) "supports" =
      some (.obj [("v0", .b ri.supports.v0), ("v1", .b ri.supports.v1)])) :=
  ⟨fun _ => rfl, fun _ => rfl, fun _ => rfl, fun _ => rfl, fun _ => rfl,
    fun _ => rfl⟩

/-- Counterexample to claim C5: an unparsable npm version string is not
discarded; it makes `inspectNpm` raise. -/
theorem C5_counterexample :
    cleanParse "not-a-version" = none ∧
    inspectNpm "some-pkg" (some ["not-a-version"]) =
      .error "Invalid Version" :=
  ⟨by decide, rfl⟩

/-- Claim C5 as amended: the git-tag source silently discards every
unparsable tag (selection is unchanged by dropping them, and the
selector is total); the npm source instead assumes parsable versions —
it succeeds when all parse and raises when any fails to parse. -/
theorem C5_amended :
    (∀ repo tags, getLatestGitTags repo tags =
        getLatestGitTags repo
          (tags.filter (fun t => (cleanParse t).isSome))) ∧
    (∀ nm versions, (∀ v ∈ versions, (cleanParse v).isSome = true) →
        inspectNpm nm (some versions) = .ok (npmSelectCore nm versions)) ∧
    (∀ nm versions, (∃ v ∈ versions, cleanParse v = none) →
        inspectNpm nm (some versions) = .error "Invalid Version") := by
  refine ⟨?_, ?_, ?_⟩
  · intro repo tags
    have hff : (tags.filter (fun t => (cleanParse t).isSome)).filter
        (fun t => (cleanParse t).isSome) =
        tags.filter (fun t => (cleanParse t).isSome) := by
      rw [List.filter_filter]
      exact List.filter_congr (fun a _ => Bool.and_self _)
    rw [getLatestGitTags, getLatestGitTags, hff]
  · intro nm versions hall
    show (if (versions.all fun v => (cleanParse v).isSome) = true then
        Except.ok (npmSelectCore nm versions)
      else Except.error "Invalid Version") = Except.ok (npmSelectCore nm versions)
    rw [if_pos (List.all_eq_true.mpr hall)]
  · rintro nm versions ⟨v, hv, hnone⟩
    have hall : (versions.all fun v => (cleanParse v).isSome) = false := by
      cases h : versions.all fun v => (cleanParse v).isSome
      · rfl
      · exact absurd (List.all_eq_true.mp h v hv) (by simp [hnone])
    show (if (versions.all fun v => (cleanParse v).isSome) = true then
        Except.ok (npmSelectCore nm versions)
      else Except.error "Invalid Version") = Except.error "Invalid Version"
    rw [hall]
    simp

/-- Witness for C5's amended claim on a parsable singleton. -/
theorem C5_amended_witness :
    inspectNpm "pkg" (some ["1.0.0"]) = .ok (npmSelectCore "pkg" ["1.0.0"]) :=
  C5_amended.2.1 "pkg" ["1.0.0"] (by decide)

/-- Full specification of the v1 selection pattern shared by both
sources: the result is of major 1, prefers the maximal stable version
when one exists, and is otherwise the maximal prerelease. -/
theorem sel_v1_spec {l : List String} {x : String}
    (hx : (match ((l.insertionSort tagGE).filter
        (fun t => majorOf t == some 1)).find? isStable with
      | some t => some t
      | none => ((l.insertionSort tagGE).filter
          (fun t => majorOf t == some 1)).head?) = some x) :
    x ∈ l ∧ majorOf x = some 1 ∧
      ((∃ y ∈ l, majorOf y = some 1 ∧ isStable y = true) →
        isStable x = true ∧
          ∀ y ∈ l, majorOf y = some 1 → isStable y = true → tagGE x y) ∧
      ((∀ y ∈ l, majorOf y = some 1 → isStable y = false) →
        ∀ y ∈ l, majorOf y = some 1 → tagGE x y) := by
  cases hf : ((l.insertionSort tagGE).filter
      (fun t => majorOf t == some 1)).find? isStable with
  | some s =>
    rw [hf] at hx
    cases Option.some.inj hx
    obtain ⟨m1, m2, m3, m4⟩ := sel_v1_stable_spec hf
    refine ⟨m1, m2, fun _ => ⟨m3, m4⟩, ?_⟩
    intro hall
    exact absurd m3 (by simp [hall _ m1 m2])
  | none =>
    rw [hf] at hx
    obtain ⟨m1, m2, m3, m4⟩ := sel_v1_pre_spec hf hx
    refine ⟨m1, m2, ?_, fun _ => m4⟩
    rintro ⟨y, hy, hy1, hys⟩
    have hyf := List.find?_eq_none.mp hf y
      (List.mem_filter.mpr
        ⟨(List.mem_insertionSort tagGE).mpr hy, by simpa using hy1⟩)
    exact absurd hys (by simpa using hyf)

/-- The v1 selection returns something whenever a major-1 version is
present. -/
theorem sel_v1_some {l : List String} {y : String} (hy : y ∈ l)
    (h1 : majorOf y = some 1) :
    (match ((l.insertionSort tagGE).filter
        (fun t => majorOf t == some 1)).find? isStable with
      | some t => some t
      | none => ((l.insertionSort tagGE).filter
          (fun t => majorOf t == some 1)).head?) ≠ none := by
  cases hf : ((l.insertionSort tagGE).filter
      (fun t => majorOf t == some 1)).find? isStable with
  | some s => simp
  | none =>
    obtain ⟨x, hx⟩ := sel_v1_nonempty hy h1
    rw [hx]
    simp

/-- Counterexample to claim C2: on the v0 track the selector does not
prefer stable versions — with stable `0.4.0` present it still returns
the higher prerelease `0.5.0-beta.1` (git-tag source shown; the npm
selection shares the code path). -/
theorem C2_counterexample :
    (getLatestGitTags "owner/repo" ["0.4.0", "0.5.0-beta.1"]).v0 =
      some "0.5.0-beta.1" ∧
    majorOf "0.4.0" = some 0 ∧ isStable "0.4.0" = true ∧
    majorOf "0.5.0-beta.1" = some 0 ∧ isStable "0.5.0-beta.1" = false := by
  decide

/-- Claim C2 as amended: for both sources, the v1 track behaves as
claimed (maximal stable of major 1 when a stable one exists, else the
maximal prerelease), but the v0 track returns the maximum of all
major-0 versions by semantic-version precedence regardless of
stability.  Both selections return an element of the input and are
populated whenever a version of the track's major is present. -/
theorem C2_amended :
    (∀ repo tags x, (getLatestGitTags repo tags).v0 = some x →
        x ∈ tags ∧ majorOf x = some 0 ∧
          ∀ y ∈ tags, majorOf y = some 0 → tagGE x y) ∧
    (∀ repo tags y, y ∈ tags → majorOf y = some 0 →
        (getLatestGitTags repo tags).v0 ≠ none) ∧
    (∀ repo tags x, (getLatestGitTags repo tags).v1 = some x →
        x ∈ tags ∧ majorOf x = some 1 ∧
          ((∃ y ∈ tags, majorOf y = some 1 ∧ isStable y = true) →
            isStable x = true ∧
              ∀ y ∈ tags, majorOf y = some 1 → isStable y = true →
                tagGE x y) ∧
          ((∀ y ∈ tags, majorOf y = some 1 → isStable y = false) →
            ∀ y ∈ tags, majorOf y = some 1 → tagGE x y)) ∧
    (∀ repo tags y, y ∈ tags → majorOf y = some 1 →
        (getLatestGitTags repo tags).v1 ≠ none) ∧
    (∀ nm versions ti, inspectNpm nm (some versions) = .ok ti →
        (∀ x, ti.v0 = some x →
          x ∈ versions ∧ majorOf x = some 0 ∧
            ∀ y ∈ versions, majorOf y = some 0 → tagGE x y) ∧
        (∀ y ∈ versions, majorOf y = some 0 → ti.v0 ≠ none) ∧
        (∀ x, ti.v1 = some x →
          x ∈ versions ∧ majorOf x = some 1 ∧
            ((∃ y ∈ versions, majorOf y = some 1 ∧ isStable y = true) →
              isStable x = true ∧
                ∀ y ∈ versions, majorOf y = some 1 → isStable y = true →
                  tagGE x y) ∧
            ((∀ y ∈ versions, majorOf y = some 1 → isStable y = false) →
              ∀ y ∈ versions, majorOf y = some 1 → tagGE x y)) ∧
        (∀ y ∈ versions, majorOf y = some 1 → ti.v1 ≠ none)) := by
  refine ⟨?_, ?_, ?_, ?_, ?_⟩
  · intro repo tags x hx
    rw [getLatestGitTags_v0] at hx
    obtain ⟨hmem, hmaj, hmax⟩ := sel_major_spec hx
    refine ⟨(List.mem_filter.mp hmem).1, hmaj, ?_⟩
    intro y hy hmy
    exact hmax y (mem_valid_of_major hy hmy) hmy
  · intro repo tags y hy hmy
    rw [getLatestGitTags_v0]
    obtain ⟨x, hx⟩ := sel_major_exists (mem_valid_of_major hy hmy) hmy
    rw [hx]
    simp
  · intro repo tags x hx
    rw [getLatestGitTags_v1] at hx
    obtain ⟨m1, m2, m3, m4⟩ := sel_v1_spec hx
    refine ⟨(List.mem_filter.mp m1).1, m2, ?_, ?_⟩
    · rintro ⟨y, hy, hy1, hys⟩
      obtain ⟨s1, s2⟩ := m3 ⟨y, mem_valid_of_major hy hy1, hy1, hys⟩
      exact ⟨s1, fun z hz hz1 hzs => s2 z (mem_valid_of_major hz hz1) hz1 hzs⟩
    · intro hall y hy hy1
      exact m4 (fun z hz hz1 => hall z (List.mem_filter.mp hz).1 hz1) y
        (mem_valid_of_major hy hy1) hy1
  · intro repo tags y hy hmy
    rw [getLatestGitTags_v1]
    exact sel_v1_some (mem_valid_of_major hy hmy) hmy
  · intro nm versions ti hok
    obtain ⟨-, rfl⟩ := inspectNpm_ok_versions hok
    refine ⟨?_, ?_, ?_, ?_⟩
    · intro x hx
      rw [npmSelectCore_v0] at hx
      exact sel_major_spec hx
    · intro y hy hmy
      rw [npmSelectCore_v0]
      obtain ⟨x, hx⟩ := sel_major_exists hy hmy
      rw [hx]
      simp
    · intro x hx
      rw [npmSelectCore_v1] at hx
      exact sel_v1_spec hx
    · intro y hy hmy
      rw [npmSelectCore_v1]
      exact sel_v1_some hy hmy

/-- Witness for C2's amended claim: the selection over two v1 tags is
populated, via the v1-presence conjunct at a concrete input. -/
theorem C2_amended_witness :
    (getLatestGitTags "owner/repo" ["v1.9.0", "v1.10.0"]).v1 ≠ none :=
  C2_amended.2.2.2.1 "owner/repo" ["v1.9.0", "v1.10.0"] "v1.9.0"
    (by decide) (by decide)

/-- Claim C10: a selected version, from either source and either track,
parses as a semantic version with exactly that track's major number. -/
theorem C10_track_integrity :
    (∀ repo tags x, (getLatestGitTags repo tags).v0 = some x →
        ∃ v, cleanParse x = some v ∧ v.major = 0) ∧
    (∀ repo tags x, (getLatestGitTags repo tags).v1 = some x →
        ∃ v, cleanParse x = some v ∧ v.major = 1) ∧
    (∀ nm meta ti x, inspectNpm nm meta = .ok ti → ti.v0 = some x →
        ∃ v, cleanParse x = some v ∧ v.major = 0) ∧
    (∀ nm meta ti x, inspectNpm nm meta = .ok ti → ti.v1 = some x →
        ∃ v, cleanParse x = some v ∧ v.major = 1) := by
  refine ⟨?_, ?_, ?_, ?_⟩
  · intro repo tags x hx
    rw [getLatestGitTags_v0] at hx
    exact majorOf_eq_some (sel_major_spec hx).2.1
  · intro repo tags x hx
    rw [getLatestGitTags_v1] at hx
    exact majorOf_eq_some (sel_v1_spec hx).2.1
  · intro nm meta ti x h hx
    exact majorOf_eq_some (inspectNpm_v0_major h hx)
  · intro nm meta ti x h hx
    exact majorOf_eq_some (inspectNpm_v1_major h hx)

/-- Witness for C10 at a concrete selected tag. -/
theorem C10_track_integrity_witness :
    ∃ v, cleanParse "0.3.1" = some v ∧ v.major = 0 :=
  C10_track_integrity.1 "o/r" ["0.3.1"] "0.3.1" (by decide)

/-- Each branch's record, after one manifest-loop run over the whole
list: flags accumulate positivity, branch slots fold to the last
positive branch. -/
theorem manifestScan_ok_spec :
    ∀ (ps : List Pkg) (st ms : MScan), manifestScan ps st = .ok ms →
      ms.sV0 = (st.sV0 || ps.any pkgPosV0) ∧
      ms.sV1 = (st.sV1 || ps.any pkgPosV1) ∧
      ms.bV0 = (posBranchesV0 ps).foldl (fun _ b => some b) st.bV0 ∧
      ms.bV1 = (posBranchesV1 ps).foldl (fun _ b => some b) st.bV1 := by
  intro ps
  induction ps with
  | nil =>
    intro st ms h
    cases Except.ok.inj h
    simp [posBranchesV0, posBranchesV1]
  | cons p t ih =>
    intro st ms h
    unfold manifestScan at h
    cases hstep : manifestStep st p with
    | error e => rw [hstep] at h; exact absurd h (by simp)
    | ok st' =>
      rw [hstep] at h
      obtain ⟨i0, i1, i2, i3⟩ := ih st' ms h
      rw [manifestStep_ok hstep] at i0 i1 i2 i3
      refine ⟨?_, ?_, ?_, ?_⟩
      · rw [i0]; simp [Bool.or_assoc]
      · rw [i1]; simp [Bool.or_assoc]
      · rw [i2]
        simp only [posBranchesV0, List.filter_cons]
        by_cases hp : pkgPosV0 p = true
        · simp [hp]
        · simp [hp]
      · rw [i3]
        simp only [posBranchesV1, List.filter_cons]
        by_cases hp : pkgPosV1 p = true
        · simp [hp]
        · simp [hp]

/-- Folding overwrites down a list keeps the last element (or the
start value when the list is empty). -/
theorem foldl_overwrite (l : List String) (init : Option String) :
    l.foldl (fun _ b => some b) init = l.getLast?.or init := by
  induction l generalizing init with
  | nil => rfl
  | cons a t ih =>
    rw [List.foldl_cons, ih]
    cases t with
    | nil => rfl
    | cons b u =>
      rw [List.getLast?_cons_cons]
      cases hg : (b :: u).getLast? with
      | none => simp at hg
      | some z => rfl

/-- Counterexample to claim C6: branches `main` and `0.x` both carry a
v0-positive manifest; the recorded v0 branch is `0.x`, the last
positive candidate, not the first (`main`). -/
theorem C6_counterexample :
    collectPkgs worldTwoBranches =
      [⟨some "0.5.0", some "^0.9.0", "main"⟩,
        ⟨some "0.6.0", some "^0.9.0", "0.x"⟩] ∧
    pkgPosV0 ⟨some "0.5.0", some "^0.9.0", "main"⟩ = true ∧
    manifestScan (collectPkgs worldTwoBranches) mscanInit =
      .ok ⟨true, false, some "0.x", none⟩ ∧
    (some "0.x" : Option String) ≠ some "main" :=
  ⟨by decide, by decide, rfl, by decide⟩

/-- Claim C6 as amended: over the manifests in probe order (existing
candidate branches `main`, `master`, `0.x`, `1.x`), the branch recorded
for a track is the LAST positive one, and the flag fires iff some
manifest is positive. -/
theorem C6_amended (ps : List Pkg) (st ms : MScan)
    (h : manifestScan ps st = .ok ms) :
    ms.sV0 = (st.sV0 || ps.any pkgPosV0) ∧
    ms.bV0 = ((posBranchesV0 ps).getLast?).or st.bV0 ∧
    ms.sV1 = (st.sV1 || ps.any pkgPosV1) ∧
    ms.bV1 = ((posBranchesV1 ps).getLast?).or st.bV1 := by
  obtain ⟨h0, h1, h2, h3⟩ := manifestScan_ok_spec ps st ms h
  exact ⟨h0, by rw [h2, foldl_overwrite], h1, by rw [h3, foldl_overwrite]⟩

/-- Witness for C6's amended claim at the two-manifest input. -/
theorem C6_amended_witness :
    (⟨true, false, some "0.x", none⟩ : MScan).sV0 =
      (mscanInit.sV0 || ([⟨some "0.5.0", some "^0.9.0", "main"⟩,
        ⟨some "0.6.0", some "^0.9.0", "0.x"⟩] : List Pkg).any pkgPosV0) ∧
    (⟨true, false, some "0.x", none⟩ : MScan).bV0 =
      ((posBranchesV0 [⟨some "0.5.0", some "^0.9.0", "main"⟩,
        ⟨some "0.6.0", some "^0.9.0", "0.x"⟩]).getLast?).or mscanInit.bV0 ∧
    (⟨true, false, some "0.x", none⟩ : MScan).sV1 =
      (mscanInit.sV1 || ([⟨some "0.5.0", some "^0.9.0", "main"⟩,
        ⟨some "0.6.0", some "^0.9.0", "0.x"⟩] : List Pkg).any pkgPosV1) ∧
    (⟨true, false, some "0.x", none⟩ : MScan).bV1 =
      ((posBranchesV1 [⟨some "0.5.0", some "^0.9.0", "main"⟩,
        ⟨some "0.6.0", some "^0.9.0", "0.x"⟩]).getLast?).or mscanInit.bV1 :=
  C6_amended
    [⟨some "0.5.0", some "^0.9.0", "main"⟩,
      ⟨some "0.6.0", some "^0.9.0", "0.x"⟩]
    mscanInit ⟨true, false, some "0.x", none⟩ rfl

/-- Counterexample to claim C1: a plugin with a selected git-tag v0
version but no manifest signal and no npm data gets `supports.v0 =
false`; under the claim's disjunction it would be true.  The git-tag
selection feeds only the version fields, never the flags. -/
theorem C1_counterexample :
    (getLatestGitTags "o/r" worldGitOnly.tags).v0 = some "0.3.1" ∧
    processRepo "p" "github:o/r" worldGitOnly =
      .ok ("p", ⟨⟨"o/r", ⟨some "0.3.1", none⟩, ⟨none, none⟩⟩,
        ⟨"p", none, none⟩, ⟨false, false⟩⟩) :=
  ⟨by decide, rfl⟩

/-- Claim C1 as amended: for every plugin whose processing succeeds,
`supported(m)` is the manifest flag OR the presence of an npm selection
for `m` — the git-tag selection does not enter the disjunction. -/
theorem C1_amended (npmId gitRef : String) (w : RemoteRepo) (ms : MScan)
    (ni : TagInfo) (out : String × RepoInfo)
    (hms : manifestScan (collectPkgs w) mscanInit = .ok ms)
    (hni : inspectNpm (guessNpmName npmId) w.npmMeta = .ok ni)
    (hout : processRepo npmId gitRef w = .ok out) :
    out.2.supports.v0 = (ms.sV0 || ni.v0.isSome) ∧
    out.2.supports.v1 = (ms.sV1 || ni.v1.isSome) := by
  obtain ⟨h0, h1, -⟩ := processRepo_supports hms hni hout
  exact ⟨h0, h1⟩

/-- Witness for C1's amended claim at a plugin with one npm v0
version. -/
theorem C1_amended_witness :
    (("p", (⟨⟨"o/r", ⟨some "0.3.1", none⟩, ⟨none, none⟩⟩,
        ⟨"p", some "0.3.1", none⟩, ⟨true, false⟩⟩ : RepoInfo)) :
      String × RepoInfo).2.supports.v0 =
      (mscanInit.sV0 || (some "0.3.1" : Option String).isSome) ∧
    (("p", (⟨⟨"o/r", ⟨some "0.3.1", none⟩, ⟨none, none⟩⟩,
        ⟨"p", some "0.3.1", none⟩, ⟨true, false⟩⟩ : RepoInfo)) :
      String × RepoInfo).2.supports.v1 =
      (mscanInit.sV1 || (none : Option String).isSome) :=
  C1_amended "p" "github:o/r" worldNpmV0 mscanInit ⟨"p", some "0.3.1", none⟩
    ("p", ⟨⟨"o/r", ⟨some "0.3.1", none⟩, ⟨none, none⟩⟩,
      ⟨"p", some "0.3.1", none⟩, ⟨true, false⟩⟩) rfl rfl rfl

/-- Claim C8: a track is marked supported only when a corroborating
signal exists (positive manifest check, or a selected version of that
major from a source feeding the flags), and when every input for the
track is absent the flag is false — never a default of true. -/
theorem C8_no_default_true (npmId gitRef rep : String) (w : RemoteRepo)
    (ms : MScan) (ni : TagInfo) (out : String × RepoInfo)
    (hms : manifestScan (collectPkgs w) mscanInit = .ok ms)
    (hni : inspectNpm (guessNpmName npmId) w.npmMeta = .ok ni)
    (hout : processRepo npmId gitRef w = .ok out) :
    (out.2.supports.v0 = true →
      ms.sV0 = true ∨ (getLatestGitTags rep w.tags).v0 ≠ none ∨
        ni.v0 ≠ none) ∧
    (ms.sV0 = false → (getLatestGitTags rep w.tags).v0 = none →
      ni.v0 = none → out.2.supports.v0 = false) ∧
    (out.2.supports.v1 = true →
      ms.sV1 = true ∨ (getLatestGitTags rep w.tags).v1 ≠ none ∨
        ni.v1 ≠ none) ∧
    (ms.sV1 = false → (getLatestGitTags rep w.tags).v1 = none →
      ni.v1 = none → out.2.supports.v1 = false) := by
  obtain ⟨h0, h1, -⟩ := processRepo_supports hms hni hout
  rw [h0, h1]
  refine ⟨?_, ?_, ?_, ?_⟩
  · intro h
    rcases Bool.or_eq_true_iff.mp h with h' | h'
    · exact Or.inl h'
    · refine Or.inr (Or.inr ?_)
      intro hn
      rw [hn] at h'
      exact Bool.noConfusion h'
  · intro hm _ hn
    rw [hm, hn]
    rfl
  · intro h
    rcases Bool.or_eq_true_iff.mp h with h' | h'
    · exact Or.inl h'
    · refine Or.inr (Or.inr ?_)
      intro hn
      rw [hn] at h'
      exact Bool.noConfusion h'
  · intro hm _ hn
    rw [hm, hn]
    rfl

/-- Witness for C8 at a plugin with no signals at all: the flags are
false. -/
theorem C8_no_default_true_witness :
    ((("p", (⟨⟨"o/r", ⟨none, none⟩, ⟨none, none⟩⟩, ⟨"p", none, none⟩,
        ⟨false, false⟩⟩ : RepoInfo)) : String × RepoInfo).2.supports.v0 =
          true →
      mscanInit.sV0 = true ∨
        (getLatestGitTags "o/r" worldEmpty.tags).v0 ≠ none ∨
        (⟨"p", none, none⟩ : TagInfo).v0 ≠ none) ∧
    (mscanInit.sV0 = false → (getLatestGitTags "o/r" worldEmpty.tags).v0 =
        none →
      (⟨"p", none, none⟩ : TagInfo).v0 = none →
      (("p", (⟨⟨"o/r", ⟨none, none⟩, ⟨none, none⟩⟩, ⟨"p", none, none⟩,
        ⟨false, false⟩⟩ : RepoInfo)) : String × RepoInfo).2.supports.v0 =
          false) ∧
    ((("p", (⟨⟨"o/r", ⟨none, none⟩, ⟨none, none⟩⟩, ⟨"p", none, none⟩,
        ⟨false, false⟩⟩ : RepoInfo)) : String × RepoInfo).2.supports.v1 =
          true →
      mscanInit.sV1 = true ∨
        (getLatestGitTags "o/r" worldEmpty.tags).v1 ≠ none ∨
        (⟨"p", none, none⟩ : TagInfo).v1 ≠ none) ∧
    (mscanInit.sV1 = false → (getLatestGitTags "o/r" worldEmpty.tags).v1 =
        none →
      (⟨"p", none, none⟩ : TagInfo).v1 = none →
      (("p", (⟨⟨"o/r", ⟨none, none⟩, ⟨none, none⟩⟩, ⟨"p", none, none⟩,
        ⟨false, false⟩⟩ : RepoInfo)) : String × RepoInfo).2.supports.v1 =
          false) :=
  C8_no_default_true "p" "github:o/r" "o/r" worldEmpty mscanInit
    ⟨"p", none, none⟩
    ("p", ⟨⟨"o/r", ⟨none, none⟩, ⟨none, none⟩⟩, ⟨"p", none, none⟩,
      ⟨false, false⟩⟩) rfl rfl rfl

/-- A successful `processRepo` keeps the plugin identifier. -/
theorem processRepo_fst {i r : String} {w : RemoteRepo}
    {out : String × RepoInfo} (h : processRepo i r w = .ok out) :
    out.1 = i := by
  unfold processRepo at h
  split at h
  · exact Except.noConfusion h
  · split at h
    · exact Except.noConfusion h
    · split at h
      · exact Except.noConfusion h
      · split at h
        · exact Except.noConfusion h
        · split at h
          · exact Except.noConfusion h
          · rw [← Except.ok.inj h]

/-- Counterexample to claim C4: the value `github:foo` is not of the
form `github:<owner>/<repo>`, yet it passes the filter and is not
absent from classification — instead classification throws on it and
the whole run aborts. -/
theorem C4_counterexample :
    keepEntry "plugin-x" "github:foo" = true ∧
    filterRegistry [("plugin-x", "github:foo")] =
      [("plugin-x", "github:foo")] ∧
    parseGitRef "github:foo" = none ∧
    classifyAll [("plugin-x", "github:foo")] (fun _ => worldEmpty) =
      .error "Invalid git reference: github:foo" :=
  ⟨by decide, by decide, by decide, rfl⟩

/-- Claim C4 as amended: entries with an empty or blank key or a value
not starting with `github:` are filtered out before classification and
absent from the report (report keys equal the classified keys); but a
value that starts with `github:` while lacking a nonempty owner and
repo passes the filter, and classifying it throws, aborting the whole
run. -/
theorem C4_amended :
    (∀ entries k v, (k, v) ∈ filterRegistry entries →
        keepEntry k v = true) ∧
    (∀ entries k v, keepEntry k v = false →
        (k, v) ∉ filterRegistry entries) ∧
    (∀ entries world rep, classifyAll entries world = .ok rep →
        rep.map (·.1) = entries.map (·.1)) ∧
    (∀ k v rest world, keepEntry k v = true → parseGitRef v = none →
        classifyAll ((k, v) :: rest) world =
          .error ("Invalid git reference: " ++ v)) := by
  refine ⟨?_, ?_, ?_, ?_⟩
  · intro entries k v h
    exact (List.mem_filter.mp h).2
  · intro entries k v hk h
    exact absurd (List.mem_filter.mp h).2 (by simp [hk])
  · intro entries
    induction entries with
    | nil =>
      intro world rep h
      unfold classifyAll at h
      rw [List.mapM_nil] at h
      cases Except.ok.inj h
      rfl
    | cons e t ih =>
      intro world rep h
      unfold classifyAll at h
      rw [List.mapM_cons] at h
      cases hp : processRepo e.1 e.2 (world e.1) with
      | error err => rw [hp] at h; exact Except.noConfusion h
      | ok out =>
        rw [hp] at h
        cases hr : t.mapM (fun e => processRepo e.1 e.2 (world e.1)) with
        | error err =>
          rw [hr] at h
          exact Except.noConfusion h
        | ok outs =>
          rw [hr] at h
          have h' : Except.ok (out :: outs) = Except.ok rep := h
          cases Except.ok.inj h'
          have htail : classifyAll t world = .ok outs := hr
          rw [List.map_cons, List.map_cons, processRepo_fst hp, ih world outs htail]
  · intro k v rest world hk hpg
    have hpr : processRepo k v (world k) =
        .error ("Invalid git reference: " ++ v) := by
      unfold processRepo
      rw [hpg]
    unfold classifyAll
    rw [List.mapM_cons]
    show (processRepo k v (world k) >>= fun x =>
        (rest.mapM fun e => processRepo e.1 e.2 (world e.1)) >>= fun xs =>
          pure (x :: xs)) = Except.error ("Invalid git reference: " ++ v)
    rw [hpr]
    rfl

/-- Witness for C4's amended claim: classification of a blank-ownered
reference aborts with the invalid-reference error. -/
theorem C4_amended_witness :
    classifyAll [("plugin-y", "github:nope")] (fun _ => worldEmpty) =
      .error ("Invalid git reference: " ++ "github:nope") :=
  C4_amended.2.2.2 "plugin-y" "github:nope" [] (fun _ => worldEmpty)
    (by decide) (by decide)

end Registry
